import Mathlib

/-
Shallow embedding of the OASIS duplicate-file scanner core
(src/base.hpp, src/duplicate_files_scanner.hpp, src/unique_files_scanner.hpp,
src/directory_enumerator.hpp).

Conventions of the embedding:
* a filesystem path is a list of name components (absolute, root first);
* machine integers (uintmax_t, size_t) are Nat; SIZE_MAX is 2^64 - 1 (LP64);
* the 512-bit digest (Botan::Skein_512) is an abstract parameter
  `hash : List Nat -> List Nat`; its output_length() is the constant 64;
* the filesystem seen by one scan is a finite tree of entries; each regular
  file carries its byte content, its device+inode identity (a Nat, used to
  model std::filesystem::equivalent) and three booleans recording whether
  file_size, the ifstream open, and the streaming reads succeed for it;
* `std::execution::par` in _build_list interleaves entries
  nondeterministically, but every map/set mutation happens under _list_lock;
  the fold below is the linearisation of one such execution, and every
  property proved here is insensitive to the entry order except where a
  concrete order is fixed by a concrete input.
-/

/-- Last path component, as std::filesystem::path::filename() on our
component lists ("" for an empty path). -/
def leafName (p : List String) : String := p.getLastD ""

/-- oasis::filesystem::is_hidden (base.hpp, lines 377-391): the filename's
first character is a dot.  (The error branch fires only for empty paths.) -/
def isHiddenName (n : String) : Bool :=
  match n.data with
  | [] => false
  | c :: _ => c = '.'

/-- Suffix of a character list starting at its last dot, if any. -/
def lastDotSuffix : List Char → Option (List Char)
  | [] => none
  | c :: rest =>
    match lastDotSuffix rest with
    | some s => some s
    | none => if c = '.' then some (c :: rest) else none

/-- std::filesystem::path::extension() of a filename: the substring from the
last dot, empty for ".", ".." and for a dot in first position. -/
def extOf (n : String) : String :=
  if n = "." || n = ".." then ""
  else
    match lastDotSuffix n.data with
    | none => ""
    | some s => if s.length = n.data.length then "" else String.mk s

/-- A canonical path together with the device+inode identity of the object
it refers to; std::filesystem::equivalent(a, b) is modelled as equality of
the identities. -/
structure FileRef where
  path : List String
  id : Nat
  deriving DecidableEq, Repr

/-- Opening bracket class of the boost regex [\(\[{_] in filename_sort. -/
def isOpenerChar (c : Char) : Bool :=
  c = '(' || c = '[' || c = '{' || c = '_'

/-- Closing bracket class of the boost regex [\)\]}_] in filename_sort. -/
def isCloserChar (c : Char) : Bool :=
  c = ')' || c = ']' || c = '}' || c = '_'

/-- Numeric value of a digit run (std::stoull on the captured group). -/
def natOfDigits (l : List Char) : Nat :=
  l.foldl (fun acc c => acc * 10 + (c.toNat - '0'.toNat)) 0

/-- Match of the regex (?:[\(\[{_])(\d+)(?:[\)\]}_]) anchored at the head of
the list: an opener, a maximal nonempty digit run, then a closer.  (Digits
are never closers, so the greedy \d+ needs no backtracking.) -/
def numTokenAt : List Char → Option Nat
  | [] => none
  | c :: rest =>
    if isOpenerChar c then
      let ds := rest.takeWhile (fun d => d.isDigit)
      let rest2 := rest.dropWhile (fun d => d.isDigit)
      match ds, rest2 with
      | [], _ => none
      | _ :: _, c2 :: _ => if isCloserChar c2 then some (natOfDigits ds) else none
      | _ :: _, [] => none
    else none

/-- boost::regex_search with the bracket-number regex: leftmost match wins. -/
def findNumToken : List Char → Option Nat
  | [] => none
  | c :: rest =>
    match numTokenAt (c :: rest) with
    | some v => some v
    | none => findNumToken rest

/-- Case-insensitive "starts with" (boost is_iequal char test uses
std::toupper on both sides). -/
def iStartsWith : List Char → List Char → Bool
  | [], _ => true
  | _ :: _, [] => false
  | a :: as, b :: bs => (a.toUpper = b.toUpper) && iStartsWith as bs

/-- boost::icontains(hay, needle): needle occurs contiguously in hay, case
insensitively. -/
def iContains (hay needle : List Char) : Bool :=
  iStartsWith needle hay ||
    match hay with
    | [] => false
    | _ :: t => iContains t needle

/-- boost::ilexicographical_compare: lexicographic strict-less with the
case-insensitive character order toupper(a) < toupper(b). -/
def ilexLt : List Char → List Char → Bool
  | _, [] => false
  | [], _ :: _ => true
  | a :: as, b :: bs =>
    if a.toUpper < b.toUpper then true
    else if b.toUpper < a.toUpper then false
    else ilexLt as bs

/-- oasis::filesystem::filename_sort::operator() (base.hpp, lines 206-245),
the comparator of every duplicate set.  Empty or equivalent paths compare
false; filenames with bracketed numbers compare by number; a numbered name
sorts after an unnumbered one; otherwise a shorter name compares by
case-insensitive containment and equal-or-longer names by case-insensitive
lexicographic order. -/
def filename_sort (lhs rhs : FileRef) : Bool :=
  if lhs.path.isEmpty || rhs.path.isEmpty then false
  else if lhs.id = rhs.id then false
  else
    let n1 := (leafName lhs.path).data
    let n2 := (leafName rhs.path).data
    match findNumToken n1, findNumToken n2 with
    | some num1, some num2 => decide (num1 < num2)
    | some _, none => false
    | none, some _ => true
    | none, none =>
      if n1.length < n2.length then iContains n2 n1
      else ilexLt n1 n2

/-- Per-file data of one regular file as one scan observes it: identity,
bytes, and whether file_size, the ifstream open, and the streamed reads
succeed on it. -/
structure FileData where
  id : Nat
  bytes : List Nat
  statOk : Bool
  openOk : Bool
  readOk : Bool
  deriving DecidableEq, Repr

/-- The hex digit table {'0'..'9','A'..'F'} of _get_hash_of_file. -/
def hexDigitChar (n : Nat) : Char :=
  (['0', '1', '2', '3', '4', '5', '6', '7', '8', '9',
    'A', 'B', 'C', 'D', 'E', 'F']).getD n '0'

/-- Uppercase hex of a byte list, two digits per byte (c / 16 then c % 16). -/
def hexBytes : List Nat → List Char
  | [] => []
  | c :: rest => hexDigitChar (c / 16) :: hexDigitChar (c % 16) :: hexBytes rest

/-- The small-file branch of _get_hash_of_file: a string of 2*64 zeros whose
first 2n characters are overwritten with the hex of the n file bytes. -/
def hexSmall (bytes : List Nat) : List Char :=
  hexBytes bytes ++ List.replicate (128 - 2 * bytes.length) '0'

/-- Content key: the tuple (file size, hex string) keying the index map. -/
abbrev ContentKey := Nat × List Char

/-- Outcome of duplicate_files_scanner::_get_hash_of_file (lines 39-90):
`fatalStat` is a file_size failure (returns false with ec set); `filtered`,
`openFail` and `readFail` all return false with ec clear; `ok` returns the
content key. -/
inductive DigestResult where
  | fatalStat
  | filtered
  | openFail
  | readFail
  | ok (key : ContentKey)
  deriving DecidableEq, Repr

/-- duplicate_files_scanner::_get_hash_of_file: stat the size, apply the
size window, open, then either hex the raw bytes (size <= 64) or hex the
digest of the streamed bytes; a zero-byte read mid-stream fails. -/
def get_hash_of_file (hash : List Nat → List Nat) (minS maxS : Nat)
    (f : FileData) : DigestResult :=
  if f.statOk = false then .fatalStat
  else if f.bytes.length < minS || maxS < f.bytes.length then .filtered
  else if f.openOk = false then .openFail
  else if f.bytes.length ≤ 64 then .ok (f.bytes.length, hexSmall f.bytes)
  else if f.readOk = false then .readFail
  else .ok (f.bytes.length, hexBytes (hash f.bytes))

/-- The content key _get_hash_of_file produces for a file it accepts. -/
def keyOf (hash : List Nat → List Nat) (bytes : List Nat) : ContentKey :=
  (bytes.length, if bytes.length ≤ 64 then hexSmall bytes else hexBytes (hash bytes))

/-- Strict lexicographic character-list order (std::string operator<). -/
def charListLt : List Char → List Char → Bool
  | _, [] => false
  | [], _ :: _ => true
  | a :: as, b :: bs => a < b || (a = b && charListLt as bs)

/-- std::less on the map key std::tuple<uintmax_t, std::string>: size
ascending, then hex string ascending. -/
def keyLt (a b : ContentKey) : Bool :=
  a.1 < b.1 || (a.1 = b.1 && charListLt a.2 b.2)

/-- The duplicate-set index map _sets, as a key-sorted association list. -/
abbrev DupMap := List (ContentKey × List FileRef)

/-- _sets.contains / _sets.at: first binding of a key, if any. -/
def lookupKey (k : ContentKey) : DupMap → Option (List FileRef)
  | [] => none
  | (k2, s) :: rest => if k2 = k then some s else lookupKey k rest

/-- Replace the binding of an existing key, keeping its map position. -/
def updateKey (k : ContentKey) (s : List FileRef) : DupMap → DupMap
  | [] => []
  | (k2, s2) :: rest =>
    if k2 = k then (k, s) :: rest else (k2, s2) :: updateKey k s rest

/-- _sets.emplace of a fresh key: insert at its ordered map position. -/
def insertNewKey (k : ContentKey) (s : List FileRef) : DupMap → DupMap
  | [] => [(k, s)]
  | (k2, s2) :: rest =>
    if keyLt k k2 then (k, s) :: (k2, s2) :: rest
    else (k2, s2) :: insertNewKey k s rest

/-- std::set<path, filename_sort>::insert: place the element at its ordered
position; when an existing element compares equivalent (neither before the
other) the insert is a no-op and the new element is dropped. -/
def setInsert (lt : FileRef → FileRef → Bool) (p : FileRef) :
    List FileRef → List FileRef
  | [] => [p]
  | x :: xs =>
    if lt p x then p :: x :: xs
    else if lt x p then x :: setInsert lt p xs
    else x :: xs

/-- The map mutation of _add_file's locked section: insert into the
existing set of the key, or bind a fresh singleton set. -/
def insertRef (k : ContentKey) (p : FileRef) (m : DupMap) : DupMap :=
  match lookupKey k m with
  | some s => updateKey k (setInsert filename_sort p s) m
  | none => insertNewKey k [p] m

/-- The remove-singletons pass of perform_scan (lines 539-550): stage every
key whose set has size 1 and erase it. -/
def pruneSingles (m : DupMap) : DupMap :=
  m.filter (fun kv => kv.2.length != 1)

/-- What a directory entry's path resolves to, after following symlinks the
way std::filesystem::exists / is_regular_file do: a regular file with its
data, or something else (directory, special file). -/
structure ResolvedInfo where
  isRegular : Bool
  data : FileData
  deriving DecidableEq, Repr

/-- Placeholder file data for entries that do not resolve to regular files;
_add_file never reads it because is_regular_file fails first. -/
def dummyFileData : FileData := ⟨0, [], true, true, true⟩

/-- One directory tree as one scan observes it.  A linkFile is a symlink
resolving to a regular file, a linkDir one resolving to a directory (whose
content is carried inline), linkBad a dangling symlink.  Each link carries
the canonical path of its target (none when canonicalization fails). -/
inductive FsTree where
  | file (d : FileData)
  | dir (entries : List (String × FsTree))
  | linkFile (canon : Option (List String)) (d : FileData)
  | linkDir (canon : Option (List String)) (entries : List (String × FsTree))
  | linkBad (canon : Option (List String))

/-- A directory entry as _add_file receives it: its own absolute path, its
symlink-ness, the canonical path of its target, and the resolved object
(none when the path does not exist). -/
structure Entry where
  path : List String
  isLink : Bool
  canon : Option (List String)
  target : Option ResolvedInfo
  deriving DecidableEq, Repr

/-- The directory_entry produced for a named node of a directory. -/
def entryOf (pp : List String) (n : String) (t : FsTree) : Entry :=
  match t with
  | .file d => ⟨pp ++ [n], false, some (pp ++ [n]), some ⟨true, d⟩⟩
  | .dir _ => ⟨pp ++ [n], false, some (pp ++ [n]), some ⟨false, dummyFileData⟩⟩
  | .linkFile c d => ⟨pp ++ [n], true, c, some ⟨true, d⟩⟩
  | .linkDir c _ => ⟨pp ++ [n], true, c, some ⟨false, dummyFileData⟩⟩
  | .linkBad c => ⟨pp ++ [n], true, c, none⟩

/-- std::filesystem::recursive_directory_iterator over a directory's
children: preorder, descending into every subdirectory, and through
directory symlinks only when follow_directory_symlink is set (which
perform_scan sets exactly when _follow_links holds).  The iterator itself
never filters on hidden-ness. -/
def traverseList (follow : Bool) (pp : List String) :
    List (String × FsTree) → List Entry
  | [] => []
  | (n, t) :: rest =>
    entryOf pp n t ::
      ((match t with
        | .dir es => traverseList follow (pp ++ [n]) es
        | .linkDir _ es =>
          if follow then traverseList follow (pp ++ [n]) es else []
        | _ => []) ++ traverseList follow pp rest)

/-- The callback invocations of one scan, in order, assuming every callback
is registered.  The four constructors mirror the four stored std::function
members of duplicate_files_scanner. -/
inductive ScanEvent where
  | scanStarted (root : List String)
  | scanProgress (root : List String) (files : Nat) (sets : Nat)
  | scanCompleted (root : List String) (files : Nat) (sets : Nat)
  | scanError (root : List String) (offending : List String)
  deriving DecidableEq, Repr

/-- Scanner state: the index map, the _files_examined and _sets_found
counters, and the emitted callback trace. -/
structure ScanState where
  sets : DupMap
  filesExamined : Nat
  setsFound : Nat
  events : List ScanEvent
  deriving DecidableEq, Repr

/-- Scan configuration (the directory_scanner fields of base.hpp plus
_remove_single of duplicate_files_scanner), with constructor defaults. -/
structure Config where
  followLinks : Bool := false
  skipHidden : Bool := false
  minSize : Nat := 0
  maxSize : Nat := 2 ^ 64 - 1
  extensions : List String := []
  removeSingle : Bool := true
  deriving DecidableEq, Repr

/-- The path p that _add_file works on (lines 103-122): a followed symlink
canonicalizes (none = error), an unfollowed symlink keeps the link's own
absolute path, and a plain entry canonicalizes to itself (entries of a scan
from a canonical root are already canonical). -/
def resolveEntry (cfg : Config) (e : Entry) : Option (List String) :=
  if e.isLink then (if cfg.followLinks then e.canon else some e.path)
  else some e.path

/-- duplicate_files_scanner::_add_file (lines 92-168): hidden filter on the
entry's own filename, symlink resolution, existence and regular-file
checks, extension filter, digest, then the locked index insert with the
progress callback the first time a set reaches size 2. -/
def add_file (hash : List Nat → List Nat) (cfg : Config) (root : List String)
    (st : ScanState) (e : Entry) : ScanState :=
  if cfg.skipHidden && isHiddenName (leafName e.path) then st
  else
    match resolveEntry cfg e with
    | none => { st with events := st.events ++ [.scanError root e.path] }
    | some p =>
      match e.target with
      | none => st
      | some t =>
        if t.isRegular = false then st
        else if !cfg.extensions.isEmpty &&
            !cfg.extensions.contains (extOf (leafName p)) then st
        else
          match get_hash_of_file hash cfg.minSize cfg.maxSize t.data with
          | .fatalStat => { st with events := st.events ++ [.scanError root e.path] }
          | .filtered => st
          | .openFail => st
          | .readFail => st
          | .ok k =>
            let ref : FileRef := ⟨p, t.data.id⟩
            match lookupKey k st.sets with
            | some s =>
              let s2 := setInsert filename_sort ref s
              if s2.length = 2 then
                { st with
                  sets := updateKey k s2 st.sets,
                  filesExamined := st.filesExamined + 1,
                  setsFound := st.setsFound + 1,
                  events := st.events ++
                    [.scanProgress root (st.filesExamined + 1) (st.setsFound + 1)] }
              else
                { st with
                  sets := updateKey k s2 st.sets,
                  filesExamined := st.filesExamined + 1 }
            | none =>
              { st with
                sets := insertNewKey k [ref] st.sets,
                filesExamined := st.filesExamined + 1 }

/-- The entry sequence _build_list dispatches on: the recursive iterator's
preorder listing, or the flat directory_iterator listing. -/
def scanList (cfg : Config) (root : List String)
    (tree : List (String × FsTree)) (recursive : Bool) : List Entry :=
  if recursive then traverseList cfg.followLinks root tree
  else tree.map (fun nt => entryOf root nt.1 nt.2)

/-- Fold of _add_file over the dispatched entries. -/
def scanEntries (hash : List Nat → List Nat) (cfg : Config)
    (root : List String) (entries : List Entry) (st : ScanState) : ScanState :=
  entries.foldl (add_file hash cfg root) st

/-- State of a fresh duplicate_files_scanner at the top of perform_scan,
after the initial scan_progress callback (lines 526): counters zero, the
progress event already emitted. -/
def initState (root : List String) : ScanState :=
  { sets := [], filesExamined := 0, setsFound := 0,
    events := [.scanProgress root 0 0] }

/-- duplicate_files_scanner::perform_scan (lines 516-553) on a fresh
scanner: fire scan_progress, walk the tree, prune singleton sets when
_remove_single holds, and fire scan_progress again.  (No other callback is
invoked anywhere in perform_scan.) -/
def perform_scan (hash : List Nat → List Nat) (cfg : Config)
    (root : List String) (tree : List (String × FsTree))
    (recursive : Bool) : ScanState :=
  let st := scanEntries hash cfg root (scanList cfg root tree recursive)
    (initState root)
  let st2 := if cfg.removeSingle then { st with sets := pruneSingles st.sets } else st
  { st2 with events := st2.events ++
      [.scanProgress root st2.filesExamined st2.setsFound] }

/-- unique_files_scanner::perform_scan (lines 127-139): run an inner
duplicate_files_scanner whose configuration keeps its constructor defaults
except _remove_single := false, the forwarded follow-symlinks flag and the
forwarded extension filters, then collect the first element of every set.
(The call set_include_empty_files(_include_zero_byte) in the source targets
a member that exists in neither duplicate_files_scanner nor its base in
this source tree, so it has no counterpart here; min_size, max_size and
skip_hidden are never forwarded.) -/
def unique_perform_scan (hash : List Nat → List Nat) (outer : Config)
    (root : List String) (tree : List (String × FsTree))
    (recursive : Bool) : List FileRef × ScanState :=
  let inner : Config :=
    { followLinks := outer.followLinks, skipHidden := false, minSize := 0,
      maxSize := 2 ^ 64 - 1, extensions := outer.extensions,
      removeSingle := false }
  let st := perform_scan hash inner root tree recursive
  (st.sets.filterMap (fun kv => kv.2.head?), st)

/-- An entry's admission into the index: the checks of _add_file up to and
including a successful digest, yielding the content key and the FileRef the
locked section inserts.  none = the entry never reaches the insert. -/
def admittedKey (hash : List Nat → List Nat) (cfg : Config) (e : Entry) :
    Option (ContentKey × FileRef) :=
  if cfg.skipHidden && isHiddenName (leafName e.path) then none
  else
    match resolveEntry cfg e with
    | none => none
    | some p =>
      match e.target with
      | none => none
      | some t =>
        if t.isRegular = false then none
        else if !cfg.extensions.isEmpty &&
            !cfg.extensions.contains (extOf (leafName p)) then none
        else
          match get_hash_of_file hash cfg.minSize cfg.maxSize t.data with
          | .ok k => some (k, ⟨p, t.data.id⟩)
          | _ => none

/-- The byte content an entry's resolved target carries. -/
def entryBytes (e : Entry) : List Nat :=
  match e.target with
  | some t => t.data.bytes
  | none => []

/-- Event classifier: is this a scan_started invocation. -/
def isStartedEvent : ScanEvent → Bool
  | .scanStarted _ => true
  | _ => false

/-- Event classifier: is this a scan_completed invocation. -/
def isCompletedEvent : ScanEvent → Bool
  | .scanCompleted _ _ _ => true
  | _ => false

/-- Linux errno EAGAIN (would-block / try-again). -/
def EAGAIN : Nat := 11
/-- Linux errno ENOMEM (out of memory). -/
def ENOMEM : Nat := 12
/-- Linux errno EBUSY (device or resource busy). -/
def EBUSY : Nat := 16
/-- Linux errno ENFILE (file table overflow: too many open files in system). -/
def ENFILE : Nat := 23
/-- Linux errno EMFILE (too many open files in process). -/
def EMFILE : Nat := 24
/-- Linux errno ENOSR (out of streams resources). -/
def ENOSR : Nat := 63

/-- Outcome of one opendir attempt in directory_enumerator::move_next. -/
inductive OpenAttempt where
  | ok
  | err (e : Nat)
  deriving DecidableEq, Repr

/-- The retry condition of the POSIX opendir loop
(directory_enumerator.hpp, line 134): errno is one of ENFILE, EMFILE,
ENOSR, EAGAIN, ENOMEM.  (The _MSC_VER branch of the same file retries a
different, Windows-specific error set and does not sleep.) -/
def posix_transient (e : Nat) : Bool :=
  e = ENFILE || e = EMFILE || e = ENOSR || e = EAGAIN || e = ENOMEM

/-- Whether an attempt makes the opendir loop retry. -/
def isTransientAttempt : OpenAttempt → Bool
  | .ok => false
  | .err e => posix_transient e

/-- The opendir retry loop of move_next (directory_enumerator.hpp, lines
130-144), run against a finite prefix of the attempt outcomes.  Result:
first component none = every listed attempt was consumed by retries,
some none = opened, some (some e) = errno e surfaced to the caller;
second component = total seconds slept (5 per retried attempt). -/
def opendir_loop : List OpenAttempt → Option (Option Nat) × Nat
  | [] => (none, 0)
  | .ok :: _ => (some none, 0)
  | .err e :: rest =>
    if posix_transient e then
      let r := opendir_loop rest
      (r.1, r.2 + 5)
    else (some (some e), 0)

/-- A digest stand-in for concrete runs: every file digests to 64 zero
bytes.  (Small-file runs never invoke it.) -/
def hashZero : List Nat → List Nat := fun _ => List.replicate 64 0

/-- The default scanner configuration. -/
def cfgDefault : Config := {}

/-- Default configuration with singleton pruning disabled. -/
def cfgNoPrune : Config := { removeSingle := false }

/-- Two identical two-byte regular files with unnumbered filenames. -/
def treeTwoDup : List (String × FsTree) :=
  [("x.txt", .file ⟨1, [104, 105], true, true, true⟩),
   ("y.txt", .file ⟨2, [104, 105], true, true, true⟩)]

/-- Two identical two-byte regular files whose filenames both carry the
bracketed numeric token _1_. -/
def treeNumTok : List (String × FsTree) :=
  [("a_1_x", .file ⟨1, [104, 105], true, true, true⟩),
   ("b_1_x", .file ⟨2, [104, 105], true, true, true⟩)]

/-- A single symlink whose target is a regular two-byte file. -/
def treeLinkOnly : List (String × FsTree) :=
  [("link", .linkFile (some ["t", "a.txt"]) ⟨7, [104, 105], true, true, true⟩)]

/-- A regular file whose open fails, followed by a healthy one. -/
def treeOpenFail : List (String × FsTree) :=
  [("bad.txt", .file ⟨1, [65], true, false, true⟩),
   ("g1.txt", .file ⟨2, [66], true, true, true⟩)]

/-- A dot-directory containing one regular file with an undotted name. -/
def treeDotDir : List (String × FsTree) :=
  [(".git", .dir [("f.txt", .file ⟨3, [104], true, true, true⟩)])]

/-- Membership of a FileRef in the set a key is bound to. -/
def memMap (k : ContentKey) (q : FileRef) (m : DupMap) : Prop :=
  ∃ s, lookupKey k m = some s ∧ q ∈ s

theorem leafName_concat (pp : List String) (n : String) :
    leafName (pp ++ [n]) = n := by
  simp [leafName, List.getLastD_concat]

theorem filename_sort_irrefl (x : FileRef) : filename_sort x x = false := by
  simp [filename_sort]

theorem setInsert_ne_nil (lt : FileRef → FileRef → Bool) (p : FileRef)
    (s : List FileRef) : setInsert lt p s ≠ [] := by
  cases s with
  | nil => simp [setInsert]
  | cons x xs =>
    simp only [setInsert]
    split
    · simp
    · split <;> simp

theorem setInsert_mem (lt : FileRef → FileRef → Bool) (p q : FileRef)
    (s : List FileRef) (h : q ∈ s) : q ∈ setInsert lt p s := by
  induction s with
  | nil => cases h
  | cons x xs ih =>
    simp only [setInsert]
    split
    · exact List.mem_cons_of_mem _ h
    · split
      · rcases List.mem_cons.mp h with h1 | h2
        · exact List.mem_cons.mpr (Or.inl h1)
        · exact List.mem_cons.mpr (Or.inr (ih h2))
      · exact h

theorem setInsert_subset (lt : FileRef → FileRef → Bool) (p q : FileRef)
    (s : List FileRef) (h : q ∈ setInsert lt p s) : q = p ∨ q ∈ s := by
  induction s with
  | nil =>
    simp [setInsert] at h
    exact Or.inl h
  | cons x xs ih =>
    simp only [setInsert] at h
    split at h
    · rcases List.mem_cons.mp h with h1 | h2
      · exact Or.inl h1
      · exact Or.inr h2
    · split at h
      · rcases List.mem_cons.mp h with h1 | h2
        · exact Or.inr (List.mem_cons.mpr (Or.inl h1))
        · rcases ih h2 with h3 | h4
          · exact Or.inl h3
          · exact Or.inr (List.mem_cons.mpr (Or.inr h4))
      · exact Or.inr h

theorem setInsert_self_or_blocked (lt : FileRef → FileRef → Bool)
    (p : FileRef) (s : List FileRef) :
    p ∈ setInsert lt p s ∨
      ∃ q ∈ s, lt p q = false ∧ lt q p = false := by
  induction s with
  | nil => exact Or.inl (by simp [setInsert])
  | cons x xs ih =>
    simp only [setInsert]
    split
    · exact Or.inl (List.mem_cons_self _ _)
    · split
      · rcases ih with h1 | ⟨q, hq, hb⟩
        · exact Or.inl (List.mem_cons_of_mem _ h1)
        · exact Or.inr ⟨q, List.mem_cons_of_mem _ hq, hb⟩
      · rename_i h1 h2
        exact Or.inr ⟨x, List.mem_cons_self _ _,
          Bool.eq_false_iff.mpr h1, Bool.eq_false_iff.mpr h2⟩

theorem lookupKey_mem (k : ContentKey) (m : DupMap) (s : List FileRef)
    (h : lookupKey k m = some s) : (k, s) ∈ m := by
  induction m with
  | nil => cases h
  | cons kv rest ih =>
    rcases kv with ⟨k2, s2⟩
    simp only [lookupKey] at h
    split at h
    · rename_i he
      cases h
      cases he
      exact List.mem_cons_self _ _
    · exact List.mem_cons_of_mem _ (ih h)

theorem lookupKey_updateKey_self (k : ContentKey) (s s0 : List FileRef)
    (m : DupMap) (h : lookupKey k m = some s0) :
    lookupKey k (updateKey k s m) = some s := by
  induction m with
  | nil => cases h
  | cons kv rest ih =>
    rcases kv with ⟨k2, s2⟩
    simp only [lookupKey, updateKey] at h ⊢
    split at h
    · rename_i he
      simp [he, lookupKey]
    · rename_i he
      rw [if_neg he]
      simp only [lookupKey]
      rw [if_neg he]
      exact ih h

theorem lookupKey_updateKey_ne (k k2 : ContentKey) (s : List FileRef)
    (m : DupMap) (h : k2 ≠ k) :
    lookupKey k2 (updateKey k s m) = lookupKey k2 m := by
  induction m with
  | nil => rfl
  | cons kv rest ih =>
    rcases kv with ⟨k3, s3⟩
    simp only [updateKey]
    split
    · rename_i he
      have hk1 : ¬(k = k2) := fun hk => h hk.symm
      have hk2 : ¬(k3 = k2) := by rw [he]; exact hk1
      simp only [lookupKey]
      rw [if_neg hk1, if_neg hk2]
    · simp only [lookupKey]
      split
      · rfl
      · exact ih

theorem lookupKey_insertNewKey_self (k : ContentKey) (s : List FileRef)
    (m : DupMap) (h : lookupKey k m = none) :
    lookupKey k (insertNewKey k s m) = some s := by
  induction m with
  | nil => simp [insertNewKey, lookupKey]
  | cons kv rest ih =>
    rcases kv with ⟨k2, s2⟩
    simp only [lookupKey] at h
    split at h
    · cases h
    · rename_i he
      simp only [insertNewKey]
      split
      · simp [lookupKey]
      · simp only [lookupKey]
        rw [if_neg he]
        exact ih h

theorem lookupKey_insertNewKey_ne (k k2 : ContentKey) (s : List FileRef)
    (m : DupMap) (h : k2 ≠ k) :
    lookupKey k2 (insertNewKey k s m) = lookupKey k2 m := by
  induction m with
  | nil =>
    simp only [insertNewKey, lookupKey]
    rw [if_neg (fun hk => h hk.symm)]
  | cons kv rest ih =>
    rcases kv with ⟨k3, s3⟩
    simp only [insertNewKey]
    split
    · simp only [lookupKey]
      rw [if_neg (fun hk => h hk.symm)]
    · simp only [lookupKey]
      split
      · rfl
      · exact ih

theorem mem_updateKey (k : ContentKey) (s : List FileRef) (m : DupMap)
    (kv : ContentKey × List FileRef) (h : kv ∈ updateKey k s m) :
    kv = (k, s) ∨ kv ∈ m := by
  induction m with
  | nil => cases h
  | cons kv2 rest ih =>
    rcases kv2 with ⟨k2, s2⟩
    simp only [updateKey] at h
    split at h
    · rcases List.mem_cons.mp h with h1 | h2
      · exact Or.inl h1
      · exact Or.inr (List.mem_cons_of_mem _ h2)
    · rcases List.mem_cons.mp h with h1 | h2
      · exact Or.inr (List.mem_cons.mpr (Or.inl h1))
      · rcases ih h2 with h3 | h4
        · exact Or.inl h3
        · exact Or.inr (List.mem_cons_of_mem _ h4)

theorem mem_insertNewKey (k : ContentKey) (s : List FileRef) (m : DupMap)
    (kv : ContentKey × List FileRef) (h : kv ∈ insertNewKey k s m) :
    kv = (k, s) ∨ kv ∈ m := by
  induction m with
  | nil =>
    simp [insertNewKey] at h
    exact Or.inl h
  | cons kv2 rest ih =>
    rcases kv2 with ⟨k2, s2⟩
    simp only [insertNewKey] at h
    split at h
    · rcases List.mem_cons.mp h with h1 | h2
      · exact Or.inl h1
      · exact Or.inr h2
    · rcases List.mem_cons.mp h with h1 | h2
      · exact Or.inr (List.mem_cons.mpr (Or.inl h1))
      · rcases ih h2 with h3 | h4
        · exact Or.inl h3
        · exact Or.inr (List.mem_cons_of_mem _ h4)

theorem lookupKey_filter (k : ContentKey) (m : DupMap) (s : List FileRef)
    (P : ContentKey × List FileRef → Bool)
    (h : lookupKey k m = some s) (hp : P (k, s) = true) :
    lookupKey k (m.filter P) = some s := by
  induction m with
  | nil => cases h
  | cons kv rest ih =>
    rcases kv with ⟨k2, s2⟩
    simp only [lookupKey] at h
    split at h
    · rename_i he
      cases h
      cases he
      simp only [List.filter, hp]
      simp [lookupKey]
    · rename_i he
      simp only [List.filter]
      split
      · simp only [lookupKey]
        rw [if_neg he]
        exact ih h
      · exact ih h

theorem get_hash_of_file_ok (hash : List Nat → List Nat) (minS maxS : Nat)
    (f : FileData) (h1 : f.statOk = true) (h2 : f.openOk = true)
    (h3 : f.readOk = true) (h4 : minS ≤ f.bytes.length)
    (h5 : f.bytes.length ≤ maxS) :
    get_hash_of_file hash minS maxS f = .ok (keyOf hash f.bytes) := by
  simp only [get_hash_of_file, keyOf, h1, h2, h3]
  rw [if_neg (by simp), if_neg (by simp [Nat.not_lt.mpr h4, Nat.not_lt.mpr h5]),
    if_neg (by simp)]
  split
  · rfl
  · rw [if_neg (by simp)]

theorem get_hash_of_file_key (hash : List Nat → List Nat) (minS maxS : Nat)
    (f : FileData) (k : ContentKey)
    (h : get_hash_of_file hash minS maxS f = .ok k) :
    k = keyOf hash f.bytes := by
  unfold get_hash_of_file at h
  unfold keyOf
  split
  · repeat' split at h
    all_goals simp_all
  · repeat' split at h
    all_goals simp_all

theorem admittedKey_key (hash : List Nat → List Nat) (cfg : Config)
    (e : Entry) (k : ContentKey) (p : FileRef)
    (h : admittedKey hash cfg e = some (k, p)) :
    k = keyOf hash (entryBytes e) := by
  unfold admittedKey at h
  by_cases h0 : (cfg.skipHidden && isHiddenName (leafName e.path)) = true
  · rw [if_pos h0] at h; cases h
  · rw [if_neg h0] at h
    cases hres : resolveEntry cfg e with
    | none => rw [hres] at h; cases h
    | some p2 =>
      rw [hres] at h
      dsimp only at h
      cases htgt : e.target with
      | none => rw [htgt] at h; cases h
      | some t =>
        rw [htgt] at h
        dsimp only at h
        by_cases hreg : t.isRegular = false
        · rw [if_pos hreg] at h; cases h
        · rw [if_neg hreg] at h
          by_cases hext : (!cfg.extensions.isEmpty &&
              !cfg.extensions.contains (extOf (leafName p2))) = true
          · rw [if_pos hext] at h; cases h
          · rw [if_neg hext] at h
            cases hget : get_hash_of_file hash cfg.minSize cfg.maxSize t.data with
            | ok kk =>
              rw [hget] at h
              simp only [Option.some.injEq, Prod.mk.injEq] at h
              simp only [entryBytes, htgt]
              rw [← h.1]
              exact get_hash_of_file_key hash cfg.minSize cfg.maxSize t.data kk hget
            | fatalStat => rw [hget] at h; cases h
            | filtered => rw [hget] at h; cases h
            | openFail => rw [hget] at h; cases h
            | readFail => rw [hget] at h; cases h

theorem add_file_sets (hash : List Nat → List Nat) (cfg : Config)
    (root : List String) (st : ScanState) (e : Entry) :
    (add_file hash cfg root st e).sets =
      (match admittedKey hash cfg e with
       | none => st.sets
       | some kp => insertRef kp.1 kp.2 st.sets) := by
  unfold add_file admittedKey
  by_cases h0 : (cfg.skipHidden && isHiddenName (leafName e.path)) = true
  · rw [if_pos h0, if_pos h0]
  · rw [if_neg h0, if_neg h0]
    cases hres : resolveEntry cfg e with
    | none => rfl
    | some p2 =>
      dsimp only
      cases htgt : e.target with
      | none => rfl
      | some t =>
        dsimp only
        by_cases hreg : t.isRegular = false
        · rw [if_pos hreg, if_pos hreg]
        · rw [if_neg hreg, if_neg hreg]
          by_cases hext : (!cfg.extensions.isEmpty &&
              !cfg.extensions.contains (extOf (leafName p2))) = true
          · rw [if_pos hext, if_pos hext]
          · rw [if_neg hext, if_neg hext]
            cases hget : get_hash_of_file hash cfg.minSize cfg.maxSize t.data with
            | fatalStat => rfl
            | filtered => rfl
            | openFail => rfl
            | readFail => rfl
            | ok kk =>
              dsimp only
              unfold insertRef
              cases hlk : lookupKey kk st.sets with
              | some s =>
                dsimp only
                split <;> rfl
              | none => rfl

theorem memMap_insertRef_mono (k k0 : ContentKey) (q p0 : FileRef)
    (m : DupMap) (h : memMap k q m) : memMap k q (insertRef k0 p0 m) := by
  obtain ⟨s, hl, hq⟩ := h
  unfold insertRef
  cases hlk : lookupKey k0 m with
  | some s0 =>
    by_cases hk : k = k0
    · subst hk
      rw [hl] at hlk
      cases hlk
      exact ⟨setInsert filename_sort p0 s,
        lookupKey_updateKey_self k (setInsert filename_sort p0 s) s m hl,
        setInsert_mem filename_sort p0 q s hq⟩
    · exact ⟨s, by
        rw [lookupKey_updateKey_ne k0 k (setInsert filename_sort p0 s0) m hk]
        exact hl, hq⟩
  | none =>
    by_cases hk : k = k0
    · subst hk
      rw [hl] at hlk
      cases hlk
    · exact ⟨s, by
        rw [lookupKey_insertNewKey_ne k0 k [p0] m hk]
        exact hl, hq⟩

theorem memMap_insertRef_rev (k k0 : ContentKey) (q p0 : FileRef)
    (m : DupMap) (h : memMap k q (insertRef k0 p0 m)) :
    memMap k q m ∨ (k = k0 ∧ q = p0) := by
  obtain ⟨s, hl, hq⟩ := h
  unfold insertRef at hl
  cases hlk : lookupKey k0 m with
  | some s0 =>
    rw [hlk] at hl
    by_cases hk : k = k0
    · subst hk
      rw [lookupKey_updateKey_self k (setInsert filename_sort p0 s0) s0 m hlk] at hl
      cases hl
      rcases setInsert_subset filename_sort p0 q s0 hq with h1 | h2
      · exact Or.inr ⟨rfl, h1⟩
      · exact Or.inl ⟨s0, hlk, h2⟩
    · rw [lookupKey_updateKey_ne k0 k (setInsert filename_sort p0 s0) m hk] at hl
      exact Or.inl ⟨s, hl, hq⟩
  | none =>
    rw [hlk] at hl
    by_cases hk : k = k0
    · subst hk
      rw [lookupKey_insertNewKey_self k [p0] m hlk] at hl
      cases hl
      rcases List.mem_singleton.mp hq with h1
      exact Or.inr ⟨rfl, h1⟩
    · rw [lookupKey_insertNewKey_ne k0 k [p0] m hk] at hl
      exact Or.inl ⟨s, hl, hq⟩

theorem memMap_insertRef_present (k0 : ContentKey) (p0 : FileRef)
    (m : DupMap) :
    memMap k0 p0 (insertRef k0 p0 m) ∨
      ∃ q, memMap k0 q (insertRef k0 p0 m) ∧
        filename_sort p0 q = false ∧ filename_sort q p0 = false := by
  unfold insertRef
  cases hlk : lookupKey k0 m with
  | some s =>
    have hlk2 := lookupKey_updateKey_self k0 (setInsert filename_sort p0 s) s m hlk
    rcases setInsert_self_or_blocked filename_sort p0 s with h1 | ⟨q, hqs, hb1, hb2⟩
    · exact Or.inl ⟨setInsert filename_sort p0 s, hlk2, h1⟩
    · exact Or.inr ⟨q, ⟨setInsert filename_sort p0 s, hlk2,
        setInsert_mem filename_sort p0 q s hqs⟩, hb1, hb2⟩
  | none =>
    exact Or.inl ⟨[p0], lookupKey_insertNewKey_self k0 [p0] m hlk, by simp⟩

theorem scanEntries_mono (hash : List Nat → List Nat) (cfg : Config)
    (root : List String) (es : List Entry) :
    ∀ st k q, memMap k q st.sets →
      memMap k q (scanEntries hash cfg root es st).sets := by
  induction es with
  | nil => intro st k q h; exact h
  | cons e rest ih =>
    intro st k q h
    have step : memMap k q (add_file hash cfg root st e).sets := by
      have hs := add_file_sets hash cfg root st e
      cases hak : admittedKey hash cfg e with
      | none =>
        rw [hak] at hs
        dsimp only at hs
        rw [hs]
        exact h
      | some kp =>
        rw [hak] at hs
        dsimp only at hs
        rw [hs]
        exact memMap_insertRef_mono k kp.1 q kp.2 st.sets h
    exact ih (add_file hash cfg root st e) k q step

theorem scanEntries_origin (hash : List Nat → List Nat) (cfg : Config)
    (root : List String) (es : List Entry) :
    ∀ st k q, memMap k q (scanEntries hash cfg root es st).sets →
      memMap k q st.sets ∨ ∃ e ∈ es, admittedKey hash cfg e = some (k, q) := by
  induction es with
  | nil => intro st k q h; exact Or.inl h
  | cons e rest ih =>
    intro st k q h
    rcases ih (add_file hash cfg root st e) k q h with h2 | ⟨e2, he2, ha2⟩
    · have hs := add_file_sets hash cfg root st e
      cases hak : admittedKey hash cfg e with
      | none =>
        rw [hak] at hs
        dsimp only at hs
        rw [hs] at h2
        exact Or.inl h2
      | some kp =>
        obtain ⟨kk, pp⟩ := kp
        rw [hak] at hs
        dsimp only at hs
        rw [hs] at h2
        rcases memMap_insertRef_rev k kk q pp st.sets h2 with h3 | ⟨hk, hq⟩
        · exact Or.inl h3
        · refine Or.inr ⟨e, List.mem_cons_self _ _, ?_⟩
          rw [hak, hk, hq]
    · exact Or.inr ⟨e2, List.mem_cons_of_mem _ he2, ha2⟩

theorem scanEntries_present (hash : List Nat → List Nat) (cfg : Config)
    (root : List String) (es : List Entry) :
    ∀ st e k p, e ∈ es → admittedKey hash cfg e = some (k, p) →
      memMap k p (scanEntries hash cfg root es st).sets ∨
        ∃ q, memMap k q (scanEntries hash cfg root es st).sets ∧
          filename_sort p q = false ∧ filename_sort q p = false := by
  induction es with
  | nil =>
    intro st e k p he
    cases he
  | cons e0 rest ih =>
    intro st e k p he hak
    rcases List.mem_cons.mp he with he1 | he2
    · subst he1
      have hs := add_file_sets hash cfg root st e
      rw [hak] at hs
      dsimp only at hs
      rcases memMap_insertRef_present k p st.sets with h1 | ⟨q, hq, hb1, hb2⟩
      · left
        have step : memMap k p (add_file hash cfg root st e).sets := by
          rw [hs]; exact h1
        exact scanEntries_mono hash cfg root rest (add_file hash cfg root st e)
          k p step
      · right
        refine ⟨q, ?_, hb1, hb2⟩
        have step : memMap k q (add_file hash cfg root st e).sets := by
          rw [hs]; exact hq
        exact scanEntries_mono hash cfg root rest (add_file hash cfg root st e)
          k q step
    · exact ih (add_file hash cfg root st e0) e k p he2 hak

theorem scanEntries_sets_nonempty (hash : List Nat → List Nat) (cfg : Config)
    (root : List String) (es : List Entry) :
    ∀ st, (∀ kv ∈ st.sets, kv.2 ≠ []) →
      ∀ kv ∈ (scanEntries hash cfg root es st).sets, kv.2 ≠ [] := by
  induction es with
  | nil => intro st h; exact h
  | cons e rest ih =>
    intro st h
    apply ih
    intro kv hkv
    have hs := add_file_sets hash cfg root st e
    cases hak : admittedKey hash cfg e with
    | none =>
      rw [hak] at hs
      dsimp only at hs
      rw [hs] at hkv
      exact h kv hkv
    | some kp =>
      obtain ⟨kk, pp⟩ := kp
      rw [hak] at hs
      dsimp only at hs
      rw [hs] at hkv
      unfold insertRef at hkv
      cases hlk : lookupKey kk st.sets with
      | some s =>
        rw [hlk] at hkv
        dsimp only at hkv
        rcases mem_updateKey kk (setInsert filename_sort pp s) st.sets kv hkv with h1 | h2
        · rw [h1]
          exact setInsert_ne_nil filename_sort pp s
        · exact h kv h2
      | none =>
        rw [hlk] at hkv
        dsimp only at hkv
        rcases mem_insertNewKey kk [pp] st.sets kv hkv with h1 | h2
        · rw [h1]
          simp
        · exact h kv h2

theorem perform_scan_sets (hash : List Nat → List Nat) (cfg : Config)
    (root : List String) (tree : List (String × FsTree)) (recursive : Bool) :
    (perform_scan hash cfg root tree recursive).sets =
      (if cfg.removeSingle
       then pruneSingles (scanEntries hash cfg root
              (scanList cfg root tree recursive) (initState root)).sets
       else (scanEntries hash cfg root
              (scanList cfg root tree recursive) (initState root)).sets) := by
  unfold perform_scan
  by_cases hr : cfg.removeSingle = true
  · simp only [hr, eq_self_iff_true, if_true]
  · have hr2 : cfg.removeSingle = false := Bool.eq_false_iff.mpr hr
    simp only [hr2, Bool.false_eq_true, if_false]

/-- C4: after perform_scan with the remove-singletons policy enabled, every
set retained in the duplicate-set index has size at least 2: every key
whose set holds exactly one path has been removed. -/
theorem c4_remove_singletons (hash : List Nat → List Nat) (cfg : Config)
    (root : List String) (tree : List (String × FsTree)) (recursive : Bool)
    (hrs : cfg.removeSingle = true) :
    ∀ kv ∈ (perform_scan hash cfg root tree recursive).sets,
      2 ≤ kv.2.length := by
  intro kv hkv
  rw [perform_scan_sets hash cfg root tree recursive, hrs] at hkv
  simp only [eq_self_iff_true, if_true] at hkv
  unfold pruneSingles at hkv
  rcases List.mem_filter.mp hkv with ⟨hmem, hlen⟩
  have hne : kv.2 ≠ [] := by
    refine scanEntries_sets_nonempty hash cfg root
      (scanList cfg root tree recursive) (initState root) ?_ kv hmem
    intro kv2 hkv2
    simp [initState] at hkv2
  have h0 : kv.2.length ≠ 0 := fun hh => hne (List.length_eq_zero.mp hh)
  have h1 : kv.2.length ≠ 1 := by simpa using hlen
  omega

set_option maxRecDepth 40000 in
/-- C4 witness: the concrete two-duplicate scan retains a set of size 2. -/
theorem c4_witness :
    2 ≤ ([⟨["r", "x.txt"], 1⟩, ⟨["r", "y.txt"], 2⟩] : List FileRef).length :=
  c4_remove_singletons hashZero cfgDefault ["r"] treeTwoDup false rfl
    ((2, hexSmall [104, 105]), [⟨["r", "x.txt"], 1⟩, ⟨["r", "y.txt"], 2⟩])
    (by decide)

set_option maxRecDepth 40000 in
/-- C2 counterexample: a zero-byte admitted file yields a 128-character hex
component (all zeros), not an empty one of 2n = 0 characters. -/
theorem c2_counterexample :
    get_hash_of_file hashZero 0 (2 ^ 64 - 1) ⟨1, [], true, true, true⟩ =
      DigestResult.ok (0, List.replicate 128 '0') ∧
    ¬(List.replicate 128 '0' : List Char).length = 2 * ([] : List Nat).length := by
  decide

/-- C2 (amended): for an admitted file of size n at most 64 with bytes B,
the hex component of the content key is the uppercase hex of exactly the
bytes B extended with zero characters to 128 characters total (its first
2n characters are the hex of B), and no hashing is involved: the result is
the same for every digest function. -/
theorem c2_small_file_hex (hash hash2 : List Nat → List Nat)
    (minS maxS : Nat) (f : FileData) (h1 : f.statOk = true)
    (h2 : f.openOk = true) (h4 : minS ≤ f.bytes.length)
    (h5 : f.bytes.length ≤ maxS) (hsmall : f.bytes.length ≤ 64) :
    get_hash_of_file hash minS maxS f =
      DigestResult.ok (f.bytes.length,
        hexBytes f.bytes ++ List.replicate (128 - 2 * f.bytes.length) '0') ∧
    get_hash_of_file hash minS maxS f = get_hash_of_file hash2 minS maxS f := by
  have hh : ∀ h : List Nat → List Nat,
      get_hash_of_file h minS maxS f =
        DigestResult.ok (f.bytes.length,
          hexBytes f.bytes ++ List.replicate (128 - 2 * f.bytes.length) '0') := by
    intro h
    simp only [get_hash_of_file, h1, h2]
    rw [if_neg (by simp), if_neg (by simp [Nat.not_lt.mpr h4, Nat.not_lt.mpr h5]),
      if_neg (by simp), if_pos hsmall]
    rfl
  exact ⟨hh hash, by rw [hh hash, hh hash2]⟩

/-- C2 witness: the two-byte file 0x68 0x69 keys to 6869 followed by 124
zeros, independently of the digest function. -/
theorem c2_witness :
    get_hash_of_file hashZero 0 (2 ^ 64 - 1) ⟨1, [104, 105], true, true, true⟩ =
      DigestResult.ok (2, hexBytes [104, 105] ++ List.replicate 124 '0') ∧
    get_hash_of_file hashZero 0 (2 ^ 64 - 1) ⟨1, [104, 105], true, true, true⟩ =
      get_hash_of_file (fun _ => []) 0 (2 ^ 64 - 1)
        ⟨1, [104, 105], true, true, true⟩ :=
  c2_small_file_hex hashZero (fun _ => []) 0 (2 ^ 64 - 1)
    ⟨1, [104, 105], true, true, true⟩ rfl rfl (by decide) (by decide) (by decide)

set_option maxRecDepth 40000 in
/-- C5 counterexample: the duplicate-set comparator is not a strict total
order.  Asymmetry fails: the distinct non-equivalent filenames ab and b
each compare strictly before the other (the short one by case-insensitive
containment, the long one lexicographically).  Totality also fails:
distinct paths a_1_ and b_1_ whose filenames carry the equal bracketed
number 1 compare before each other in neither direction. -/
theorem c5_counterexample :
    filename_sort ⟨["r", "ab"], 1⟩ ⟨["r", "b"], 2⟩ = true ∧
    filename_sort ⟨["r", "b"], 2⟩ ⟨["r", "ab"], 1⟩ = true ∧
    filename_sort ⟨["r", "a_1_"], 3⟩ ⟨["r", "b_1_"], 4⟩ = false ∧
    filename_sort ⟨["r", "b_1_"], 4⟩ ⟨["r", "a_1_"], 3⟩ = false := by
  decide

/-- C5 (amended): the comparator is irreflexive — no path ever compares
strictly before itself — but it is not asymmetric, hence not a strict
total order. -/
theorem c5_irreflexive (x : FileRef) : filename_sort x x = false :=
  filename_sort_irrefl x

set_option maxRecDepth 40000 in
/-- C6: on a scan of two identical files the emitted callback trace is
exactly three scan_progress invocations (one before traversal, one when
the set reaches size 2, one after pruning); scan_started and
scan_completed are never invoked by perform_scan. -/
theorem c6_no_started_no_completed :
    (perform_scan hashZero cfgDefault ["r"] treeTwoDup false).events =
      [ScanEvent.scanProgress ["r"] 0 0, ScanEvent.scanProgress ["r"] 2 1,
       ScanEvent.scanProgress ["r"] 2 1] ∧
    ((perform_scan hashZero cfgDefault ["r"] treeTwoDup false).events.all
      (fun ev => !isStartedEvent ev && !isCompletedEvent ev)) = true := by
  decide

set_option maxRecDepth 40000 in
/-- C7 counterexample: a file whose open fails is skipped and the scan
continues (the following file is examined), but no scan_error event is
emitted for it: the trace holds only the two boundary progress events. -/
theorem c7_counterexample :
    (perform_scan hashZero cfgDefault ["r"] treeOpenFail false).filesExamined = 1 ∧
    (perform_scan hashZero cfgDefault ["r"] treeOpenFail false).events =
      [ScanEvent.scanProgress ["r"] 0 0, ScanEvent.scanProgress ["r"] 1 0] := by
  decide

/-- C8 counterexample: device-busy (EBUSY) is not in the POSIX retry set:
an opendir attempt failing with EBUSY is surfaced immediately (no retry,
no sleep) even when the next attempt would succeed. -/
theorem c8_counterexample :
    posix_transient EBUSY = false ∧
    opendir_loop [OpenAttempt.err EBUSY, OpenAttempt.ok] =
      (some (some EBUSY), 0) := by
  decide

/-- C10: the unique-files scan result is independent of the outer
scanner's minimum size, maximum size and skip-hidden settings: two
configurations agreeing on follow-symlinks and extension filters produce
identical results on every tree. -/
theorem c10_unique_scan_independent (hash : List Nat → List Nat)
    (c1 c2 : Config) (root : List String) (tree : List (String × FsTree))
    (recursive : Bool) (hf : c1.followLinks = c2.followLinks)
    (he : c1.extensions = c2.extensions) :
    unique_perform_scan hash c1 root tree recursive =
      unique_perform_scan hash c2 root tree recursive := by
  unfold unique_perform_scan
  rw [hf, he]

/-- C10 witness: a config with min_size 5, max_size 100 and skip_hidden
against the all-default config, on the two-duplicate tree. -/
theorem c10_witness :
    unique_perform_scan hashZero
        { minSize := 5, maxSize := 100, skipHidden := true } ["r"] treeTwoDup
        true =
      unique_perform_scan hashZero cfgDefault ["r"] treeTwoDup true :=
  c10_unique_scan_independent hashZero
    { minSize := 5, maxSize := 100, skipHidden := true } cfgDefault ["r"]
    treeTwoDup true rfl rfl

set_option maxRecDepth 40000 in
/-- C1 counterexample: two admitted regular files with identical size and
bytes whose filenames both carry the bracketed number 1: both are hashed
(files examined = 2) yet the final index is empty — the comparator deems
the distinct paths equivalent, the second insert is dropped, and the
resulting singleton set is pruned. -/
theorem c1_counterexample :
    (perform_scan hashZero cfgDefault ["r"] treeNumTok false).filesExamined = 2 ∧
    (perform_scan hashZero cfgDefault ["r"] treeNumTok false).sets = [] := by
  decide

set_option maxRecDepth 40000 in
/-- C3 counterexample: with follow_symlinks=false a symlink entry whose
target is a regular file is not skipped: it is digested (files examined
becomes 1) and inserted into the index under the link's own absolute
path. -/
theorem c3_counterexample :
    cfgNoPrune.followLinks = false ∧
    (perform_scan hashZero cfgNoPrune ["r"] treeLinkOnly false).filesExamined = 1 ∧
    lookupKey (2, hexSmall [104, 105])
        (perform_scan hashZero cfgNoPrune ["r"] treeLinkOnly false).sets =
      some [⟨["r", "link"], 7⟩] := by
  decide

/-- C3 (amended): with follow_symlinks=false a directory symlink is not
descended — the traversal lists a linkDir entry itself and nothing beneath
it — but a symlink entry is not skipped by _add_file: it is processed
exactly as a non-symlink entry at the link's own path would be, so a
symlink resolving to a regular file is admitted, hashed and inserted. -/
theorem c3_symlink_policy (cfg : Config) (hf : cfg.followLinks = false) :
    (∀ (pp : List String) (n : String) (c : Option (List String))
        (es : List (String × FsTree)) (rest : List (String × FsTree)),
      traverseList cfg.followLinks pp ((n, FsTree.linkDir c es) :: rest) =
        entryOf pp n (FsTree.linkDir c es) ::
          traverseList cfg.followLinks pp rest) ∧
    (∀ (hash : List Nat → List Nat) (root : List String) (st : ScanState)
        (e : Entry),
      add_file hash cfg root st e =
        add_file hash cfg root st
          { path := e.path, isLink := false, canon := e.canon,
            target := e.target }) := by
  constructor
  · intro pp n c es rest
    rw [hf]
    simp [traverseList]
  · intro hash root st e
    have hres : resolveEntry cfg e = some e.path := by
      unfold resolveEntry
      rw [hf]
      cases e.isLink <;> simp
    have hres2 : resolveEntry cfg
        { path := e.path, isLink := false, canon := e.canon,
          target := e.target } = some e.path := by
      unfold resolveEntry
      simp
    unfold add_file
    rw [hres, hres2]

/-- C3 witness: the symlink-to-regular-file entry of the counterexample
tree is processed identically to its non-symlink twin. -/
theorem c3_witness :
    add_file hashZero cfgNoPrune ["r"] (initState ["r"])
        ⟨["r", "link"], true, some ["t", "a.txt"],
          some ⟨true, ⟨7, [104, 105], true, true, true⟩⟩⟩ =
      add_file hashZero cfgNoPrune ["r"] (initState ["r"])
        ⟨["r", "link"], false, some ["t", "a.txt"],
          some ⟨true, ⟨7, [104, 105], true, true, true⟩⟩⟩ :=
  (c3_symlink_policy cfgNoPrune rfl).2 hashZero ["r"] (initState ["r"])
    ⟨["r", "link"], true, some ["t", "a.txt"],
      some ⟨true, ⟨7, [104, 105], true, true, true⟩⟩⟩

/-- C7 (amended): when the digester fails on an admitted regular file the
file is skipped and the scan continues, but the error callback fires only
for a file_size (stat) failure, which sets the error code; an open failure
or a zero-byte read returns false with the error code clear, so the entry
is dropped with no scan_error event and no state change at all. -/
theorem c7_digest_failures_silent (hash : List Nat → List Nat)
    (cfg : Config) (root : List String) (st : ScanState) (e : Entry)
    (p : List String) (t : ResolvedInfo)
    (hhid : (cfg.skipHidden && isHiddenName (leafName e.path)) = false)
    (hres : resolveEntry cfg e = some p)
    (htgt : e.target = some t)
    (hreg : t.isRegular = true)
    (hext : (!cfg.extensions.isEmpty &&
        !cfg.extensions.contains (extOf (leafName p))) = false) :
    ((get_hash_of_file hash cfg.minSize cfg.maxSize t.data =
        DigestResult.openFail ∨
      get_hash_of_file hash cfg.minSize cfg.maxSize t.data =
        DigestResult.readFail) →
      add_file hash cfg root st e = st) ∧
    (get_hash_of_file hash cfg.minSize cfg.maxSize t.data =
        DigestResult.fatalStat →
      add_file hash cfg root st e =
        { st with events := st.events ++ [ScanEvent.scanError root e.path] }) := by
  refine ⟨fun hd => ?_, fun hd => ?_⟩
  · unfold add_file
    simp only [hhid, Bool.false_eq_true, if_false]
    rw [hres]
    dsimp only
    rw [htgt]
    dsimp only
    simp only [hreg, Bool.true_eq_false, if_false]
    simp only [hext, Bool.false_eq_true, if_false]
    rcases hd with hd | hd <;> rw [hd]
  · unfold add_file
    simp only [hhid, Bool.false_eq_true, if_false]
    rw [hres]
    dsimp only
    rw [htgt]
    dsimp only
    simp only [hreg, Bool.true_eq_false, if_false]
    simp only [hext, Bool.false_eq_true, if_false]
    rw [hd]

/-- C7 witness: the failing-open file of the counterexample tree leaves
the scanner state untouched. -/
theorem c7_witness :
    add_file hashZero cfgDefault ["r"] (initState ["r"])
        ⟨["r", "bad.txt"], false, some ["r", "bad.txt"],
          some ⟨true, ⟨1, [65], true, false, true⟩⟩⟩ =
      initState ["r"] :=
  (c7_digest_failures_silent hashZero cfgDefault ["r"] (initState ["r"])
    ⟨["r", "bad.txt"], false, some ["r", "bad.txt"],
      some ⟨true, ⟨1, [65], true, false, true⟩⟩⟩
    ["r", "bad.txt"] ⟨true, ⟨1, [65], true, false, true⟩⟩
    rfl rfl rfl rfl rfl).1 (Or.inl (by decide))

/-- C8 (amended): the POSIX opendir loop of move_next retries, sleeping 5
seconds per retried attempt, exactly on the errno set {ENFILE, EMFILE,
ENOSR, EAGAIN, ENOMEM}; the first attempt outside that set decides the
outcome (success opens, any other errno is surfaced).  File opens are
never retried: the digester attempts its ifstream open once and a failed
open simply yields openFail. -/
theorem c8_retry_policy :
    (∀ l : List OpenAttempt, opendir_loop l =
      ((match l.dropWhile isTransientAttempt with
        | [] => none
        | OpenAttempt.ok :: _ => some none
        | OpenAttempt.err e :: _ => some (some e)),
       5 * (l.takeWhile isTransientAttempt).length)) ∧
    (∀ (hash : List Nat → List Nat) (minS maxS : Nat) (f : FileData),
      f.statOk = true → f.openOk = false →
      (f.bytes.length < minS || maxS < f.bytes.length) = false →
      get_hash_of_file hash minS maxS f = DigestResult.openFail) := by
  constructor
  · intro l
    induction l with
    | nil => rfl
    | cons a rest ih =>
      cases a with
      | ok => rfl
      | err e =>
        by_cases ht : posix_transient e = true
        · simp [opendir_loop, ht, ih, List.dropWhile_cons, List.takeWhile_cons,
            isTransientAttempt, Nat.mul_succ]
        · have ht2 : posix_transient e = false := Bool.eq_false_iff.mpr ht
          simp [opendir_loop, ht2, List.dropWhile_cons, List.takeWhile_cons,
            isTransientAttempt]
  · intro hash minS maxS f h1 h2 h3
    simp only [get_hash_of_file, h1, h2, h3, Bool.true_eq_false,
      Bool.false_eq_true, if_false, eq_self_iff_true, if_true]

/-- C8 witness: a file whose open fails (stat fine, size in window) is
skipped with openFail after the single open attempt. -/
theorem c8_witness :
    get_hash_of_file hashZero 0 (2 ^ 64 - 1) ⟨1, [65], true, false, true⟩ =
      DigestResult.openFail :=
  c8_retry_policy.2 hashZero 0 (2 ^ 64 - 1) ⟨1, [65], true, false, true⟩
    rfl rfl (by decide)

theorem getLastD_append_cons (d : String) : ∀ (pp : List String) (x : String)
    (l : List String), (pp ++ x :: l).getLastD d = (x :: l).getLastD d := by
  intro pp
  induction pp with
  | nil => intro x l; rfl
  | cons a as ih =>
    intro x l
    rw [List.cons_append, List.getLastD_cons]
    cases as with
    | nil => rw [List.nil_append, List.getLastD_cons, List.getLastD_cons]
    | cons b bs =>
      rw [List.cons_append, List.getLastD_cons]
      have h2 := ih x l
      rw [List.cons_append, List.getLastD_cons] at h2
      exact h2

theorem leafName_append_cons (pp : List String) (x : String) (l : List String) :
    leafName (pp ++ x :: l) = leafName (x :: l) := by
  unfold leafName
  rw [getLastD_append_cons "" pp x l]

theorem leafName_single (x : String) : leafName [x] = x := rfl

theorem leafName_pair (x y : String) : leafName [x, y] = y := rfl

set_option maxRecDepth 40000 in
/-- C9: with skip_hidden enabled the hidden test is applied only to each
entry's own filename: in a recursive scan a regular file inside a
dot-directory is still admitted and inserted whenever its own filename
does not begin with a dot — the recursive iterator descends into the
dot-directory (only the directory's own entry is skipped by _add_file)
and the file's entry reaches the index under its full path. -/
theorem c9_hidden_only_own_name (hash : List Nat → List Nat) (cfg : Config)
    (root : List String) (dn fn : String) (d : FileData)
    (hskip : cfg.skipHidden = true)
    (hdn : isHiddenName dn = true)
    (hfn : isHiddenName fn = false)
    (hext : cfg.extensions = [])
    (hrs : cfg.removeSingle = false)
    (hstat : d.statOk = true) (hopen : d.openOk = true)
    (hread : d.readOk = true)
    (hmin : cfg.minSize ≤ d.bytes.length)
    (hmax : d.bytes.length ≤ cfg.maxSize) :
    ∃ s, lookupKey (keyOf hash d.bytes)
        (perform_scan hash cfg root
          [(dn, FsTree.dir [(fn, FsTree.file d)])] true).sets = some s ∧
      (⟨root ++ [dn, fn], d.id⟩ : FileRef) ∈ s := by
  have hes : scanList cfg root [(dn, FsTree.dir [(fn, FsTree.file d)])] true =
      [entryOf root dn (FsTree.dir [(fn, FsTree.file d)]),
       entryOf (root ++ [dn]) fn (FsTree.file d)] := by
    simp [scanList, traverseList]
  have hadmDir : admittedKey hash cfg
      (entryOf root dn (FsTree.dir [(fn, FsTree.file d)])) = none := by
    simp [admittedKey, entryOf, hskip, leafName_append_cons, leafName_single,
      hdn]
  have hadmFile : admittedKey hash cfg
      (entryOf (root ++ [dn]) fn (FsTree.file d)) =
      some (keyOf hash d.bytes, ⟨root ++ [dn, fn], d.id⟩) := by
    simp [admittedKey, entryOf, resolveEntry, hskip, hfn, hext,
      leafName_append_cons, leafName_single, leafName_pair,
      get_hash_of_file_ok hash cfg.minSize cfg.maxSize d hstat hopen hread
        hmin hmax]
  have hmem : entryOf (root ++ [dn]) fn (FsTree.file d) ∈
      scanList cfg root [(dn, FsTree.dir [(fn, FsTree.file d)])] true := by
    rw [hes]
    exact List.mem_cons.mpr (Or.inr (List.mem_cons_self _ _))
  have hbuilt : memMap (keyOf hash d.bytes) ⟨root ++ [dn, fn], d.id⟩
      (scanEntries hash cfg root
        (scanList cfg root [(dn, FsTree.dir [(fn, FsTree.file d)])] true)
        (initState root)).sets := by
    rcases scanEntries_present hash cfg root
        (scanList cfg root [(dn, FsTree.dir [(fn, FsTree.file d)])] true)
        (initState root) (entryOf (root ++ [dn]) fn (FsTree.file d))
        (keyOf hash d.bytes) ⟨root ++ [dn, fn], d.id⟩ hmem hadmFile with
      h1 | ⟨q, hq, hb1, hb2⟩
    · exact h1
    · rcases scanEntries_origin hash cfg root
          (scanList cfg root [(dn, FsTree.dir [(fn, FsTree.file d)])] true)
          (initState root) (keyOf hash d.bytes) q hq with h2 | ⟨e2, he2, ha2⟩
      · obtain ⟨s, hs, _⟩ := h2
        simp [initState, lookupKey] at hs
      · rw [hes] at he2
        rcases List.mem_cons.mp he2 with he3 | he3
        · subst he3
          rw [hadmDir] at ha2
          cases ha2
        · rcases List.mem_cons.mp he3 with he4 | he4
          · subst he4
            rw [hadmFile] at ha2
            simp only [Option.some.injEq, Prod.mk.injEq] at ha2
            obtain ⟨-, ha3⟩ := ha2
            rw [ha3]
            exact hq
          · cases he4
  obtain ⟨s, hs, hin⟩ := hbuilt
  refine ⟨s, ?_, hin⟩
  rw [perform_scan_sets, hrs]
  simp only [Bool.false_eq_true, if_false]
  exact hs

set_option maxRecDepth 40000 in
/-- C9 witness: a dot-directory .git holding f.txt with one byte; the file
lands in the index under its full path. -/
theorem c9_witness :
    ∃ s, lookupKey (keyOf hashZero [104])
        (perform_scan hashZero { skipHidden := true, removeSingle := false }
          ["r"] [(".git", FsTree.dir [("f.txt",
            FsTree.file ⟨3, [104], true, true, true⟩)])] true).sets = some s ∧
      (⟨["r", ".git", "f.txt"], 3⟩ : FileRef) ∈ s :=
  c9_hidden_only_own_name hashZero
    { skipHidden := true, removeSingle := false } ["r"] ".git" "f.txt"
    ⟨3, [104], true, true, true⟩ rfl (by decide) (by decide) rfl rfl rfl rfl
    rfl (by decide) (by decide)

/-- C1 (amended): two admitted regular files with the same size and byte
content always produce the same content key and are inserted into the same
duplicate set; both paths appear in that set of the final index provided
the filename ordering separates each of them from every other admitted
path of that key (the ordering fails to separate two distinct paths when,
for instance, both filenames carry equal bracketed numbers, and the path
it fails to separate from an already stored one is silently dropped; a set
thereby reduced to one element is then pruned). -/
theorem c1_same_content_same_set (hash : List Nat → List Nat) (cfg : Config)
    (root : List String) (tree : List (String × FsTree)) (recursive : Bool)
    (a b : Entry) (ka kb : ContentKey) (pa pb : FileRef)
    (ha : a ∈ scanList cfg root tree recursive)
    (hb : b ∈ scanList cfg root tree recursive)
    (hka : admittedKey hash cfg a = some (ka, pa))
    (hkb : admittedKey hash cfg b = some (kb, pb))
    (hbytes : entryBytes a = entryBytes b)
    (hpair : filename_sort pa pb = true ∨ filename_sort pb pa = true)
    (hsep : ∀ e ∈ scanList cfg root tree recursive, ∀ q : FileRef,
      admittedKey hash cfg e = some (ka, q) →
      (q = pa ∨ filename_sort q pa = true ∨ filename_sort pa q = true) ∧
      (q = pb ∨ filename_sort q pb = true ∨ filename_sort pb q = true)) :
    ka = kb ∧
    ∃ s, lookupKey ka (perform_scan hash cfg root tree recursive).sets =
        some s ∧ pa ∈ s ∧ pb ∈ s := by
  have hkeq : ka = kb := by
    rw [admittedKey_key hash cfg a ka pa hka,
      admittedKey_key hash cfg b kb pb hkb, hbytes]
  subst hkeq
  have hpamem : memMap ka pa (scanEntries hash cfg root
      (scanList cfg root tree recursive) (initState root)).sets := by
    rcases scanEntries_present hash cfg root
        (scanList cfg root tree recursive) (initState root) a ka pa ha hka
      with h1 | ⟨q, hq, hb1, hb2⟩
    · exact h1
    · rcases scanEntries_origin hash cfg root
          (scanList cfg root tree recursive) (initState root) ka q hq
        with h2 | ⟨e2, he2, ha2⟩
      · obtain ⟨s, hs, _⟩ := h2
        simp [initState, lookupKey] at hs
      · rcases (hsep e2 he2 q ha2).1 with h3 | h3 | h3
        · rw [h3] at hq
          exact hq
        · rw [hb2] at h3
          cases h3
        · rw [hb1] at h3
          cases h3
  have hpbmem : memMap ka pb (scanEntries hash cfg root
      (scanList cfg root tree recursive) (initState root)).sets := by
    rcases scanEntries_present hash cfg root
        (scanList cfg root tree recursive) (initState root) b ka pb hb hkb
      with h1 | ⟨q, hq, hb1, hb2⟩
    · exact h1
    · rcases scanEntries_origin hash cfg root
          (scanList cfg root tree recursive) (initState root) ka q hq
        with h2 | ⟨e2, he2, ha2⟩
      · obtain ⟨s, hs, _⟩ := h2
        simp [initState, lookupKey] at hs
      · rcases (hsep e2 he2 q ha2).2 with h3 | h3 | h3
        · rw [h3] at hq
          exact hq
        · rw [hb2] at h3
          cases h3
        · rw [hb1] at h3
          cases h3
  obtain ⟨sa, hsa, hina⟩ := hpamem
  obtain ⟨sb, hsb, hinb⟩ := hpbmem
  have hseq : sa = sb := by
    have h2 := hsa.symm.trans hsb
    injection h2
  subst hseq
  have hne : pa ≠ pb := by
    intro hh
    rcases hpair with h | h
    · rw [hh, filename_sort_irrefl pb] at h
      cases h
    · rw [hh, filename_sort_irrefl pb] at h
      cases h
  have hlen2 : (sa.length != 1) = true := by
    have h2 : 2 ≤ sa.length := by
      cases sa with
      | nil => cases hina
      | cons x xs =>
        cases xs with
        | nil =>
          have e1 : pa = x := List.mem_singleton.mp hina
          have e2 : pb = x := List.mem_singleton.mp hinb
          exact absurd (e1.trans e2.symm) hne
        | cons y ys =>
          simp only [List.length_cons]
          omega
    have h3 : sa.length ≠ 1 := by omega
    simpa using h3
  refine ⟨rfl, sa, ?_, hina, hinb⟩
  rw [perform_scan_sets]
  by_cases hr : cfg.removeSingle = true
  · rw [hr]
    simp only [eq_self_iff_true, if_true]
    unfold pruneSingles
    exact lookupKey_filter ka _ sa _ hsa hlen2
  · have hr2 : cfg.removeSingle = false := Bool.eq_false_iff.mpr hr
    rw [hr2]
    simp only [Bool.false_eq_true, if_false]
    exact hsa

set_option maxRecDepth 100000 in
/-- C1 witness: the two identical files x.txt and y.txt (no numeric
tokens, so the ordering separates them) both appear in the single
retained set. -/
theorem c1_witness :
    ((2 : Nat), hexSmall [104, 105]) = ((2 : Nat), hexSmall [104, 105]) ∧
    ∃ s, lookupKey (2, hexSmall [104, 105])
        (perform_scan hashZero cfgDefault ["r"] treeTwoDup false).sets =
        some s ∧
      (⟨["r", "x.txt"], 1⟩ : FileRef) ∈ s ∧
      (⟨["r", "y.txt"], 2⟩ : FileRef) ∈ s := by
  refine c1_same_content_same_set hashZero cfgDefault ["r"] treeTwoDup false
    (entryOf ["r"] "x.txt" (FsTree.file ⟨1, [104, 105], true, true, true⟩))
    (entryOf ["r"] "y.txt" (FsTree.file ⟨2, [104, 105], true, true, true⟩))
    (2, hexSmall [104, 105]) (2, hexSmall [104, 105])
    ⟨["r", "x.txt"], 1⟩ ⟨["r", "y.txt"], 2⟩
    (by decide) (by decide) (by decide) (by decide) (by decide) (by decide)
    ?_
  intro e he q hq
  have he2 : e = entryOf ["r"] "x.txt"
        (FsTree.file ⟨1, [104, 105], true, true, true⟩) ∨
      e = entryOf ["r"] "y.txt"
        (FsTree.file ⟨2, [104, 105], true, true, true⟩) := by
    simpa [scanList, treeTwoDup] using he
  rcases he2 with he2 | he2 <;> subst he2
  · have hv : admittedKey hashZero cfgDefault
        (entryOf ["r"] "x.txt" (FsTree.file ⟨1, [104, 105], true, true, true⟩)) =
        some ((2, hexSmall [104, 105]), ⟨["r", "x.txt"], 1⟩) := by decide
    rw [hv] at hq
    simp only [Option.some.injEq, Prod.mk.injEq] at hq
    obtain ⟨-, hq2⟩ := hq
    subst hq2
    decide
  · have hv : admittedKey hashZero cfgDefault
        (entryOf ["r"] "y.txt" (FsTree.file ⟨2, [104, 105], true, true, true⟩)) =
        some ((2, hexSmall [104, 105]), ⟨["r", "y.txt"], 2⟩) := by decide
    rw [hv] at hq
    simp only [Option.some.injEq, Prod.mk.injEq] at hq
    obtain ⟨-, hq2⟩ := hq
    subst hq2
    decide
